import Mathlib

/-!
Verification development for the VIFELO Elo-history dashboard
(`src/eloen.py`).  The pipeline normalises heterogeneous Elo sources
(interval-based club records from api.clubelo.com, annual national-team
snapshots from eloratings.net) into a uniform step-wise time series, then
applies an optional date filter, optional per-entity moving-average
smoothing, and an optional per-entity rebase-to-first-value (delta)
transform.

The embedding models pandas timestamps at calendar-day granularity as
natural numbers (every timestamp produced by the program is a midnight:
parsed calendar dates or `<year>-12-31`); `toDay` is the standard
days-from-civil conversion, so ordering and "+ 1 day" agree with pandas
`Timestamp` arithmetic on these values.  Ratings are modelled as `ℚ`
(the program stores them as floats; the claims proved here are exact
algebraic identities that do not depend on rounding).  `sort_values` is
modelled as a stable sort (`List.insertionSort`), matching pandas'
observable behaviour on the inputs at issue.
-/

namespace VIFELO

/-- Days-from-civil conversion (proleptic Gregorian).  Models a pandas
`Timestamp` at day granularity: `toDay y m d` is strictly monotone in the
calendar date, and adding one calendar day adds `1`. -/
def toDay (y m d : Nat) : Nat :=
  let yy := if m ≤ 2 then y - 1 else y
  let era := yy / 400
  let yoe := yy % 400
  let mp := (m + 9) % 12
  let doy := (153 * mp + 2) / 5 + (d - 1)
  let doe := yoe * 365 + yoe / 4 - yoe / 100 + doy
  era * 146097 + doe

/-- One tidy row of the aggregated series table: `{Entity, Date, Elo}`. -/
structure Row where
  entity : String
  date : Nat
  elo : Rat
deriving DecidableEq, Repr

/-- A row after the transform stage, carrying the optional
`Elo_smoothed` and `Delta` columns (absent column = `none`, mirroring
the program only adding the column when the option is on). -/
structure OutRow where
  entity : String
  date : Nat
  elo : Rat
  eloSmoothed : Option Rat
  delta : Option Rat
deriving DecidableEq, Repr

/-- Sort key comparison used for `sort_values(["Entity", "Date"])`:
lexicographic on (entity string, date).  String comparison is by the
underlying character list, as in `String.lt`. -/
def keyLE (p q : String × Nat) : Prop :=
  toLex (p.1.data, p.2) ≤ toLex (q.1.data, q.2)

instance : DecidableRel keyLE := fun p q =>
  inferInstanceAs (Decidable (toLex (p.1.data, p.2) ≤ toLex (q.1.data, q.2)))

/-- Row ordering for `df.sort_values(["Entity", "Date"])`. -/
def rowLE (a b : Row) : Prop := keyLE (a.entity, a.date) (b.entity, b.date)

instance : DecidableRel rowLE := fun a b =>
  inferInstanceAs (Decidable (keyLE (a.entity, a.date) (b.entity, b.date)))

instance : IsTotal Row rowLE :=
  ⟨fun a b => le_total (toLex (a.entity.data, a.date)) (toLex (b.entity.data, b.date))⟩

instance : IsTrans Row rowLE :=
  ⟨fun _ _ _ hab hbc => le_trans hab hbc⟩

/-- Same ordering on transformed rows. -/
def outLE (a b : OutRow) : Prop := keyLE (a.entity, a.date) (b.entity, b.date)

instance : DecidableRel outLE := fun a b =>
  inferInstanceAs (Decidable (keyLE (a.entity, a.date) (b.entity, b.date)))

instance : IsTotal OutRow outLE :=
  ⟨fun a b => le_total (toLex (a.entity.data, a.date)) (toLex (b.entity.data, b.date))⟩

instance : IsTrans OutRow outLE :=
  ⟨fun _ _ _ hab hbc => le_trans hab hbc⟩

/-- Ordering of raw `(Date, Elo)` points for `sort_values("Date")`. -/
def ptLE (a b : Nat × Rat) : Prop := a.1 ≤ b.1

instance : DecidableRel ptLE := fun a b => inferInstanceAs (Decidable (a.1 ≤ b.1))

instance : IsTotal (Nat × Rat) ptLE := ⟨fun a b => Nat.le_total a.1 b.1⟩

instance : IsTrans (Nat × Rat) ptLE := ⟨fun _ _ _ hab hbc => Nat.le_trans hab hbc⟩

/-- Loop body of `_stepify` over the already-sorted point list: each point
contributes its own `(Date, Elo)` row, and every point except the last also
re-emits its value at the next point's date. -/
def stepGo (label : String) : List (Nat × Rat) → List Row
  | [] => []
  | [(d, v)] => [⟨label, d, v⟩]
  | (d, v) :: (d2, v2) :: rest => ⟨label, d, v⟩ :: ⟨label, d2, v⟩ :: stepGo label ((d2, v2) :: rest)

/-- `_stepify(df, date_col, value_col, label_col, label_val)`: empty in,
empty out; otherwise sort by date and duplicate each value at the next
timestamp ("step-after" expansion). -/
def stepify (label : String) (df : List (Nat × Rat)) : List Row :=
  stepGo label (List.insertionSort ptLE df)

/-- One raw CSV record of the ClubElo payload after
`pd.to_datetime(..., errors="coerce")` on `From`/`To` and
`pd.to_numeric(..., errors="coerce")` on `Elo`: an unparseable field is
`none` (NaT/NaN). -/
structure ClubRec where
  from_ : Option Nat
  to_ : Option Nat
  elo : Option Rat
deriving DecidableEq, Repr

/-- Sort key for `sort_values("From")`: records with unparseable `From`
(NaT) sort last, as with pandas' default `na_position="last"`. -/
def fromKey (r : ClubRec) : WithTop Nat :=
  match r.from_ with
  | some x => (x : WithTop Nat)
  | none => ⊤

/-- Record ordering by start date ascending, NaT last. -/
def recLE (a b : ClubRec) : Prop := fromKey a ≤ fromKey b

instance : DecidableRel recLE := fun a b => inferInstanceAs (Decidable (fromKey a ≤ fromKey b))

instance : IsTotal ClubRec recLE := ⟨fun a b => le_total (fromKey a) (fromKey b)⟩

instance : IsTrans ClubRec recLE := ⟨fun _ _ _ hab hbc => le_trans hab hbc⟩

/-- `df.dropna(subset=["Elo"]).sort_values("From")`: drop records whose
rating did not parse, then sort the remaining records by start date. -/
def clubClean (recs : List ClubRec) : List ClubRec :=
  List.insertionSort recLE (recs.filter (fun r => r.elo.isSome))

/-- Body of the interval-expansion loop of `fetch_club_history`: skip a
record whose `From` is NaT; otherwise emit `(From, Elo)` and, when `To` is
present, also `(To, Elo)`. -/
def clubExpand (r : ClubRec) : List (Nat × Rat) :=
  match r.from_ with
  | none => []
  | some f =>
    match r.elo with
    | none => []
    | some v => (f, v) :: (match r.to_ with | some t => [(t, v)] | none => [])

/-- `fetch_club_history` after the HTTP fetch and CSV parse: clean and sort
the records, expand the `[From, To]` intervals to step points, sort the
points by date and attach the club slug as the entity column. -/
def fetch_club_history (slug : String) (recs : List ClubRec) : List Row :=
  let pts := (clubClean recs).flatMap clubExpand
  (List.insertionSort ptLE pts).map (fun p => ⟨slug, p.1, p.2⟩)

/-- `df.sort_values(["Entity", "Date"])` on the aggregated table. -/
def sortRows (df : List Row) : List Row := List.insertionSort rowLE df

/-- The same sort on a table that already carries transform columns. -/
def sortOut (df : List OutRow) : List OutRow := List.insertionSort outLE df

/-- A row of the aggregated table before any transform column is added
(no `Elo_smoothed`, no `Delta`). -/
def plainOut (r : Row) : OutRow := ⟨r.entity, r.date, r.elo, none, none⟩

/-- Mean of the up-to-`k` most recent entries of `p`:
`s.rolling(k, min_periods=1).mean()` evaluated at the position whose
history (inclusive) is `p`. -/
def avgLast (k : Nat) (p : List Rat) : Rat :=
  let w := p.drop (p.length - k)
  w.sum / (w.length : Rat)

/-- `df.groupby("Entity")["Elo"].transform(lambda s: s.rolling(k,
min_periods=1).mean())`, realigned row by row: a row's smoothed value is
the mean of the last up-to-`k` raw values among the rows of the same
entity up to and including it.  `seen` accumulates the rows already
passed. -/
def smoothGo (k : Nat) (seen : List Row) : List Row → List OutRow
  | [] => []
  | r :: rs =>
    let grp := ((seen ++ [r]).filter (fun x => decide (x.entity = r.entity))).map Row.elo
    ⟨r.entity, r.date, r.elo, some (avgLast k grp), none⟩ :: smoothGo k (seen ++ [r]) rs

/-- The `value_field` of the program: `Elo_smoothed` when the smoothing
column was added, `Elo` otherwise. -/
def dispVal (r : OutRow) : Rat := r.eloSmoothed.getD r.elo

/-- `df.groupby("Entity")[value_field].transform("first")` for one
entity: the display value of the entity's first row in table order. -/
def firstVal (df : List OutRow) (ent : String) : Rat :=
  match df.find? (fun r => decide (r.entity = ent)) with
  | some r => dispVal r
  | none => 0

/-- The delta computation on the already-sorted table `s`:
`df["Delta"] = df[value_field] - df.groupby("Entity")[value_field].transform("first")`. -/
def deltaStage (s : List OutRow) : List OutRow :=
  s.map (fun r => { r with delta := some (dispVal r - firstVal s r.entity) })

/-- The module-level transform stage of `eloen.py`: optional smoothing
(`moving_average_entries > 0`: sort by entity/date and add
`Elo_smoothed`), then optional delta (`show_delta`: sort by entity/date
and add `Delta = value_field - first value_field of the entity`). -/
def transformStage (window : Nat) (showDelta : Bool) (df : List Row) : List OutRow :=
  let dfS := if 0 < window then smoothGo window [] (sortRows df) else df.map plainOut
  if showDelta then deltaStage (sortOut dfS) else dfS

/-- The module-level series pipeline after concatenation: the date
filter (`df["Date"] >= start` and `df["Date"] <= end + 1 day`, each
applied only when the bound is supplied), followed by the transform
stage. -/
def pipeline (dateStart dateEnd : Option Nat) (window : Nat) (showDelta : Bool)
    (df : List Row) : List OutRow :=
  let df1 := match dateStart with
    | some s => df.filter (fun r => decide (s ≤ r.date))
    | none => df
  let df2 := match dateEnd with
    | some e => df1.filter (fun r => decide (r.date ≤ e + 1))
    | none => df1
  transformStage window showDelta df2

/-- Trailing moving average as the spec words it: each entry is replaced
by the mean of the up-to-`k` most recent entries seen so far (a partial
window at the start of the series); `pre` is the history already seen. -/
def trailingAvgs (k : Nat) (pre : List Rat) : List Rat → List Rat
  | [] => []
  | x :: xs => avgLast k (pre ++ [x]) :: trailingAvgs k (pre ++ [x]) xs

/-- `YEARS_MIN` of `eloen.py`. -/
def YEARS_MIN : Nat := 1901

/-- `range(y0, y1 + 1)`: the inclusive year range actually crawled. -/
def yearsRange (y0 y1 : Nat) : List Nat := List.range' y0 (y1 + 1 - y0)

/-- `pd.Timestamp(f"{y}-12-31")`. -/
def dec31 (y : Nat) : Nat := toDay y 12 31

/-- Outcome of one year's body of the crawl loop, before the
`try/except`: `.error` models a raised transport exception out of
`_safe_get`, `.ok none` a fetched page in which `_parse_year_snapshot`
found no rating for the team, `.ok (some v)` a parsed rating. -/
def yearValue : Except String (Option Int) → Option Int
  | .ok (some v) => some v
  | _ => none

/-- The message of the `ValueError` raised when no year yielded a value. -/
def noDataMsg (team : String) : String :=
  "Could not find Elo for \x27" ++ team ++ "\x27 in annual snapshots."

/-- `fetch_national_history_yearly`, parameterised over the per-year
network-and-parse interaction `fetch` and the current UTC year
(`YEARS_MAX`).  Per-year exceptions are swallowed (`except: pass`), a
year contributes a `(Dec-31, rating)` record only when a rating was
parsed, and a `ValueError` is raised exactly when no year contributed;
otherwise the records are sorted by date and step-expanded. -/
def fetch_national_history_yearly (fetch : Nat → Except String (Option Int))
    (team : String) (currentYear year_start year_end : Nat) :
    Except String (List Row) :=
  let y0 := max YEARS_MIN year_start
  let y1 := min currentYear year_end
  let records := (yearsRange y0 y1).filterMap
    (fun y => (yearValue (fetch y)).map (fun v : Int => (dec31 y, (v : Rat))))
  if records.isEmpty then .error (noDataMsg team)
  else .ok (stepify team (List.insertionSort ptLE records))

/-- Python `str.lower()` modelled per character.  `Char.toLower` lowers
the ASCII range and is the identity elsewhere, which agrees with Python
on every string occurring in `TEAM_ALIASES` (their non-ASCII characters
are already lower case). -/
def pyLower (s : String) : String := ⟨s.data.map Char.toLower⟩

/-- Python `str.strip()`: remove leading and trailing whitespace. -/
def pyStrip (s : String) : String :=
  ⟨((s.data.dropWhile Char.isWhitespace).reverse.dropWhile Char.isWhitespace).reverse⟩

/-- `TEAM_ALIASES` of `eloen.py`: canonical name with its known
alternate spellings. -/
def TEAM_ALIASES : List (String × List String) :=
  [("Cote d\x27Ivoire", ["Côte d’Ivoire", "Cote d’Ivoire", "Ivory Coast"]),
   ("Bosnia and Herzegovina", ["Bosnia-Herzegovina", "Bosnia & Herzegovina"]),
   ("DR Congo", ["Congo DR", "Congo-Kinshasa"]),
   ("Congo", ["Congo-Brazzaville"]),
   ("South Korea", ["Korea Republic", "Korea, South", "Republic of Korea"]),
   ("North Korea", ["Korea DPR", "Korea, North", "DPR Korea"]),
   ("United States", ["USA", "United States of America"]),
   ("Iran", ["IR Iran", "Iran, Islamic Republic"]),
   ("Hong Kong", ["Hong-Kong"]),
   ("Moldova", ["Moldova, Republic of"]),
   ("Myanmar", ["Burma"]),
   ("Eswatini", ["Swaziland"]),
   ("Czech Republic", ["Czechia"]),
   ("Cape Verde", ["Cabo Verde"]),
   ("Timor-Leste", ["East Timor"]),
   ("Russia", ["Russian Federation"]),
   ("Syria", ["Syrian Arab Republic"]),
   ("Laos", ["Lao"])]

/-- `_name_matches(candidate, target)`: strip and lower both names,
accept on equality, otherwise accept when both lie in the same alias
group (alternates plus the canonical name, lowered). -/
def name_matches (candidate target : String) : Bool :=
  let c := pyLower (pyStrip candidate)
  let t := pyLower (pyStrip target)
  if c = t then true
  else TEAM_ALIASES.any (fun ca =>
    ((ca.2 ++ [ca.1]).map pyLower).contains c && ((ca.2 ++ [ca.1]).map pyLower).contains t)

/-! ### Helper lemmas -/

theorem stepGo_length (label : String) :
    ∀ l : List (Nat × Rat), l ≠ [] → (stepGo label l).length = 2 * l.length - 1 := by
  intro l
  induction l with
  | nil => intro h; exact absurd rfl h
  | cons hd tl ih =>
    intro _
    obtain ⟨d, v⟩ := hd
    cases tl with
    | nil => simp [stepGo]
    | cons hd2 tl2 =>
      obtain ⟨d2, v2⟩ := hd2
      have h2 := ih (by simp)
      simp only [stepGo, List.length_cons] at h2 ⊢
      omega

theorem mem_stepGo_date (label : String) :
    ∀ (l : List (Nat × Rat)) (r : Row), r ∈ stepGo label l → r.date ∈ l.map Prod.fst := by
  intro l
  induction l with
  | nil => intro r h; simp [stepGo] at h
  | cons hd tl ih =>
    intro r h
    obtain ⟨d, v⟩ := hd
    cases tl with
    | nil =>
      simp only [stepGo, List.mem_singleton] at h
      subst h; simp
    | cons hd2 tl2 =>
      obtain ⟨d2, v2⟩ := hd2
      simp only [stepGo, List.mem_cons] at h
      rcases h with h | h | h
      · subst h; simp
      · subst h; simp
      · have := ih r h
        simp only [List.map_cons, List.mem_cons] at this ⊢
        tauto

theorem mem_smoothGo (k : Nat) :
    ∀ (l seen : List Row) (r : OutRow), r ∈ smoothGo k seen l →
      ∃ r0 ∈ l, r.entity = r0.entity ∧ r.date = r0.date ∧ r.elo = r0.elo ∧
        r.delta = none ∧ r.eloSmoothed.isSome = true := by
  intro l
  induction l with
  | nil => intro seen r h; simp [smoothGo] at h
  | cons hd tl ih =>
    intro seen r h
    simp only [smoothGo, List.mem_cons] at h
    rcases h with h | h
    · exact ⟨hd, List.mem_cons_self _ _, by simp [h]⟩
    · obtain ⟨r0, hr0, hfields⟩ := ih (seen ++ [hd]) r h
      exact ⟨r0, List.mem_cons_of_mem _ hr0, hfields⟩

theorem smoothGo_map_key (k : Nat) :
    ∀ (l seen : List Row),
      (smoothGo k seen l).map (fun r => (r.entity, r.date))
        = l.map (fun r => (r.entity, r.date)) := by
  intro l
  induction l with
  | nil => intro seen; rfl
  | cons hd tl ih => intro seen; simp [smoothGo, ih]

theorem sorted_smoothGo (k : Nat) (seen : List Row) {l : List Row}
    (h : List.Sorted rowLE l) : List.Sorted outLE (smoothGo k seen l) := by
  have h1 : List.Pairwise keyLE (l.map fun r : Row => (r.entity, r.date)) :=
    (@List.pairwise_map Row (String × Nat) (fun r => (r.entity, r.date)) keyLE l).2 h
  rw [← smoothGo_map_key k l seen] at h1
  exact (@List.pairwise_map OutRow (String × Nat) (fun r => (r.entity, r.date)) keyLE
    (smoothGo k seen l)).1 h1

theorem avgLast_singleton {k : Nat} (hk : 0 < k) (x : Rat) : avgLast k [x] = x := by
  have h1 : 1 - k = 0 := by omega
  simp [avgLast, h1]

theorem smoothGo_filter_disp (k : Nat) (ent : String) :
    ∀ (l seen : List Row),
      ((smoothGo k seen l).filter (fun r => decide (r.entity = ent))).map dispVal
        = trailingAvgs k ((seen.filter (fun x => decide (x.entity = ent))).map Row.elo)
            ((l.filter (fun x => decide (x.entity = ent))).map Row.elo) := by
  intro l
  induction l with
  | nil => intro seen; simp [smoothGo, trailingAvgs]
  | cons hd tl ih =>
    intro seen
    by_cases he : hd.entity = ent
    · have hdec : decide (hd.entity = ent) = true := decide_eq_true he
      simp only [smoothGo, List.filter_cons, hdec, if_pos, List.map_cons]
      rw [ih (seen ++ [hd])]
      have hgrp : ((seen ++ [hd]).filter (fun x => decide (x.entity = hd.entity))).map Row.elo
          = (seen.filter (fun x => decide (x.entity = ent))).map Row.elo ++ [hd.elo] := by
        rw [he, List.filter_append]
        simp [hdec]
      have hseen : ((seen ++ [hd]).filter (fun x => decide (x.entity = ent))).map Row.elo
          = (seen.filter (fun x => decide (x.entity = ent))).map Row.elo ++ [hd.elo] := by
        rw [List.filter_append]
        simp [hdec]
      simp only [trailingAvgs, dispVal, Option.getD_some, hgrp, hseen]
    · have hdec : decide (hd.entity = ent) = false := decide_eq_false he
      simp only [smoothGo, List.filter_cons, hdec]
      simp only [Bool.false_eq_true, if_false]
      rw [ih (seen ++ [hd])]
      have hseen : ((seen ++ [hd]).filter (fun x => decide (x.entity = ent))).map Row.elo
          = (seen.filter (fun x => decide (x.entity = ent))).map Row.elo := by
        rw [List.filter_append]
        simp [hdec]
      rw [hseen]

theorem smoothGo_find_head (k : Nat) (hk : 0 < k) (ent : String) :
    ∀ (l seen : List Row),
      seen.filter (fun x => decide (x.entity = ent)) = [] →
      ∀ r0 : OutRow,
        (smoothGo k seen l).find? (fun r => decide (r.entity = ent)) = some r0 →
        r0.eloSmoothed = some r0.elo := by
  intro l
  induction l with
  | nil => intro seen _ r0 h; simp [smoothGo] at h
  | cons hd tl ih =>
    intro seen hseen r0 h
    by_cases he : hd.entity = ent
    · have hdec : decide (hd.entity = ent) = true := decide_eq_true he
      simp only [smoothGo, List.find?_cons, hdec] at h
      have hgrp : ((seen ++ [hd]).filter (fun x => decide (x.entity = hd.entity))).map Row.elo
          = [hd.elo] := by
        rw [he, List.filter_append, hseen]
        simp [hdec]
      rw [hgrp] at h
      cases h
      simp [avgLast_singleton hk]
    · have hdec : decide (hd.entity = ent) = false := decide_eq_false he
      simp only [smoothGo, List.find?_cons, hdec] at h
      have hseen2 : (seen ++ [hd]).filter (fun x => decide (x.entity = ent)) = [] := by
        rw [List.filter_append, hseen]
        simp [hdec]
      exact ih (seen ++ [hd]) hseen2 r0 h

theorem find?_deltaStage (s : List OutRow) (ent : String) :
    (deltaStage s).find? (fun r => decide (r.entity = ent))
      = (s.find? (fun r => decide (r.entity = ent))).map
          (fun r => { r with delta := some (dispVal r - firstVal s r.entity) }) := by
  unfold deltaStage
  exact List.find?_map _ s

theorem firstVal_deltaStage (s : List OutRow) (ent : String) :
    firstVal (deltaStage s) ent = firstVal s ent := by
  unfold firstVal
  rw [find?_deltaStage]
  cases s.find? (fun r => decide (r.entity = ent)) with
  | none => rfl
  | some r => rfl

theorem mem_deltaStage {s : List OutRow} {r : OutRow} (h : r ∈ deltaStage s) :
    ∃ r0 ∈ s, r = { r0 with delta := some (dispVal r0 - firstVal s r0.entity) } := by
  unfold deltaStage at h
  obtain ⟨r0, hr0, hEq⟩ := List.mem_map.1 h
  exact ⟨r0, hr0, hEq.symm⟩

theorem filter_map_disp_deltaStage (s : List OutRow) (p : OutRow → Bool)
    (hp : ∀ r : OutRow,
      p { r with delta := some (dispVal r - firstVal s r.entity) } = p r) :
    ((deltaStage s).filter p).map dispVal = (s.filter p).map dispVal := by
  unfold deltaStage
  rw [List.filter_map, List.map_map]
  have h1 : (p ∘ fun r : OutRow =>
      { r with delta := some (dispVal r - firstVal s r.entity) }) = p := funext hp
  rw [h1]
  rfl

theorem mem_transform_fields {w : Nat} {d : Bool} {df : List Row} {r : OutRow}
    (h : r ∈ transformStage w d df) :
    ∃ r0 ∈ df, r.entity = r0.entity ∧ r.date = r0.date ∧ r.elo = r0.elo := by
  unfold transformStage at h
  have base : ∀ r' : OutRow,
      r' ∈ (if 0 < w then smoothGo w [] (sortRows df) else df.map plainOut) →
      ∃ r0 ∈ df, r'.entity = r0.entity ∧ r'.date = r0.date ∧ r'.elo = r0.elo := by
    intro r' hr'
    by_cases hw : 0 < w
    · rw [if_pos hw] at hr'
      obtain ⟨r0, hr0, h1, h2, h3, _⟩ := mem_smoothGo w (sortRows df) [] r' hr'
      exact ⟨r0, (List.mem_insertionSort rowLE).1 hr0, h1, h2, h3⟩
    · rw [if_neg hw] at hr'
      obtain ⟨r0, hr0, hEq⟩ := List.mem_map.1 hr'
      exact ⟨r0, hr0, by rw [← hEq]; exact ⟨rfl, rfl, rfl⟩⟩
  by_cases hd : d = true
  · rw [hd, if_pos rfl] at h
    obtain ⟨r1, hr1, hEq⟩ := mem_deltaStage h
    have hr1' := (List.mem_insertionSort outLE).1 hr1
    obtain ⟨r0, hr0, h1, h2, h3⟩ := base r1 hr1'
    exact ⟨r0, hr0, by rw [hEq]; exact ⟨h1, h2, h3⟩⟩
  · rw [if_neg hd] at h
    exact base r h

theorem transform_smoothed_none_of_w0 {d : Bool} {df : List Row} {r : OutRow}
    (h : r ∈ transformStage 0 d df) : r.eloSmoothed = none := by
  unfold transformStage at h
  rw [if_neg (by omega : ¬ 0 < 0)] at h
  by_cases hd : d = true
  · rw [hd, if_pos rfl] at h
    obtain ⟨r1, hr1, hEq⟩ := mem_deltaStage h
    have hr1' := (List.mem_insertionSort outLE).1 hr1
    obtain ⟨r0, _, hEq0⟩ := List.mem_map.1 hr1'
    rw [hEq]
    show r1.eloSmoothed = none
    rw [← hEq0]
    rfl
  · rw [if_neg hd] at h
    obtain ⟨r0, _, hEq0⟩ := List.mem_map.1 h
    rw [← hEq0]
    rfl

theorem sorted_transform_smooth {w : Nat} (df : List Row) :
    List.Sorted outLE (smoothGo w [] (sortRows df)) :=
  sorted_smoothGo w [] (List.sorted_insertionSort rowLE df)

theorem deltaStage_law (s : List OutRow) :
    (∀ r ∈ deltaStage s, r.delta = some (dispVal r - firstVal (deltaStage s) r.entity)) ∧
    (∀ (ent : String) (r0 : OutRow),
      (deltaStage s).find? (fun r => decide (r.entity = ent)) = some r0 →
      r0.delta = some 0) := by
  constructor
  · intro r hr
    obtain ⟨r0, _, hEq⟩ := mem_deltaStage hr
    subst hEq
    rw [firstVal_deltaStage]
    rfl
  · intro ent r0 h
    rw [find?_deltaStage] at h
    cases hs : s.find? (fun r => decide (r.entity = ent)) with
    | none => rw [hs] at h; exact absurd h (by simp)
    | some r1 =>
      rw [hs] at h
      have hent : r1.entity = ent := by
        have := List.find?_some hs
        rwa [decide_eq_true_eq] at this
      simp only [Option.map_some', Option.some.injEq] at h
      subst h
      show some (dispVal r1 - firstVal s r1.entity) = some 0
      rw [hent]
      unfold firstVal
      rw [hs, sub_self]

theorem transform_delta_law (w : Nat) (t : List Row) :
    (∀ r ∈ transformStage w true t,
      r.delta = some (dispVal r - firstVal (transformStage w true t) r.entity)) ∧
    (∀ (ent : String) (r0 : OutRow),
      (transformStage w true t).find? (fun r => decide (r.entity = ent)) = some r0 →
      r0.delta = some 0) := by
  unfold transformStage
  rw [if_pos rfl]
  exact deltaStage_law _

/-! ### Claim theorems -/

/-- Claim C2: for every Interval Record with a parseable rating and a
parseable start date, the club step expansion emits exactly the two Step
Points `(valid_from, rating)` and `(valid_to, rating)` when `valid_to` is
present and exactly the one Step Point `(valid_from, rating)` when it is
absent; the scenario `[(2020-01-01, 2020-06-01, 1500), (2020-06-01,
absent, 1550)]` yields exactly the ordered step points `[(2020-01-01,
1500), (2020-06-01, 1500), (2020-06-01, 1550)]`, the old-rating point
first at the shared boundary date. -/
theorem club_interval_step_law :
    (∀ (f t : Nat) (v : Rat), clubExpand ⟨some f, some t, some v⟩ = [(f, v), (t, v)]) ∧
    (∀ (f : Nat) (v : Rat), clubExpand ⟨some f, none, some v⟩ = [(f, v)]) ∧
    fetch_club_history "Club"
        [⟨some (toDay 2020 1 1), some (toDay 2020 6 1), some 1500⟩,
         ⟨some (toDay 2020 6 1), none, some 1550⟩]
      = [⟨"Club", toDay 2020 1 1, 1500⟩, ⟨"Club", toDay 2020 6 1, 1500⟩,
         ⟨"Club", toDay 2020 6 1, 1550⟩] :=
  ⟨fun _ _ _ => rfl, fun _ _ => rfl, by decide⟩

/-- Claim C3: the point-based step expansion maps an empty input to an
empty output; any nonempty input of `n` points yields exactly `2n - 1`
Step Points; on an already ascending input the expansion is the in-order
"own point plus same-rating point at the next date" scheme (`stepGo`);
and the scenario `[(2019-12-31, 1700), (2020-12-31, 1750)]` yields
`[(2019-12-31, 1700), (2020-12-31, 1700), (2020-12-31, 1750)]`. -/
theorem point_stepify_law (lab : String) (pts : List (Nat × Rat)) :
    stepify lab [] = [] ∧
    (pts ≠ [] → (stepify lab pts).length = 2 * pts.length - 1) ∧
    (List.Sorted ptLE pts → stepify lab pts = stepGo lab pts) ∧
    stepify "T" [(toDay 2019 12 31, 1700), (toDay 2020 12 31, 1750)]
      = [⟨"T", toDay 2019 12 31, 1700⟩, ⟨"T", toDay 2020 12 31, 1700⟩,
         ⟨"T", toDay 2020 12 31, 1750⟩] := by
  refine ⟨rfl, ?_, ?_, by decide⟩
  · intro hne
    have hne2 : List.insertionSort ptLE pts ≠ [] := by
      intro h0
      apply hne
      have hlen := List.length_insertionSort ptLE pts
      rw [h0] at hlen
      exact List.eq_nil_of_length_eq_zero hlen.symm
    unfold stepify
    rw [stepGo_length lab _ hne2, List.length_insertionSort]
  · intro hs
    unfold stepify
    rw [List.Sorted.insertionSort_eq hs]

/-- Witness for C3 at a concrete nonempty ascending input. -/
theorem point_stepify_law_witness :
    ([((5 : Nat), (1700 : Rat)), (9, 1750)] ≠ ([] : List (Nat × Rat))) ∧
    (stepify "W" [(5, 1700), (9, 1750)]).length
      = 2 * ([((5 : Nat), (1700 : Rat)), (9, 1750)]).length - 1 :=
  ⟨by decide, (point_stepify_law "W" [(5, 1700), (9, 1750)]).2.1 (by decide)⟩

/-- Claim C6: the transform stage is a pure, deterministic function of
the input table and the two option values; identical inputs and options
give identical output, with no other dependence (in the embedding the
stage is a total function of exactly these three arguments). -/
theorem transform_stage_deterministic (w w' : Nat) (d d' : Bool) (t t' : List Row)
    (hw : w = w') (hd : d = d') (ht : t = t') :
    transformStage w d t = transformStage w' d' t' := by
  subst hw; subst hd; subst ht
  rfl

/-- Witness for C6: re-running the transform stage on the same concrete
table and options yields the identical output. -/
theorem transform_stage_deterministic_witness :
    transformStage 3 true [⟨"A", 1, 1500⟩] = transformStage 3 true [⟨"A", 1, 1500⟩] :=
  transform_stage_deterministic 3 3 true true [⟨"A", 1, 1500⟩] [⟨"A", 1, 1500⟩] rfl rfl rfl

/-- Claim C8: in the club fetch, a record is kept by the cleaning step
exactly when its rating parsed (an unparseable start date alone does not
discard a record with a valid rating), and the remaining records are
sorted by start date ascending (absent start dates last) before step
expansion. -/
theorem club_record_clean_law (recs : List ClubRec) :
    (∀ rec : ClubRec, rec ∈ clubClean recs ↔ rec ∈ recs ∧ rec.elo.isSome = true) ∧
    List.Sorted recLE (clubClean recs) := by
  constructor
  · intro rec
    unfold clubClean
    rw [List.mem_insertionSort, List.mem_filter]
  · exact List.sorted_insertionSort recLE _

/-- Claim C1 (counterexample): the filter is `Date <= end_date + 1 day`
inclusive, so with both bounds supplied a point dated the calendar day
after the end date — strictly after the entire end-date day — survives:
with start 2020-01-01 and end 2020-01-05, the point dated 2020-01-06 is
in the output, refuting `point.date ≤ end_date` (end date inclusive of
its full day). -/
theorem date_filter_counterexample :
    (pipeline (some (toDay 2020 1 1)) (some (toDay 2020 1 5)) 0 false
        [⟨"A", toDay 2020 1 6, 1500⟩]).map OutRow.date = [toDay 2020 1 6]
      ∧ ¬ toDay 2020 1 6 ≤ toDay 2020 1 5 := by decide

/-- Claim C1 (amended): when both bounds are supplied, every point of
the output satisfies `start_date ≤ point.date ≤ end_date + 1 day` — the
end bound admits points up to and including the start of the calendar
day after the end date, not only the end date's own day. -/
theorem date_filter_bounds_amended (s e w : Nat) (d : Bool) (df : List Row)
    (r : OutRow) (hr : r ∈ pipeline (some s) (some e) w d df) :
    s ≤ r.date ∧ r.date ≤ e + 1 := by
  unfold pipeline at hr
  obtain ⟨r0, hr0, _, hdate, _⟩ := mem_transform_fields hr
  rw [List.mem_filter] at hr0
  obtain ⟨hr1, hle⟩ := hr0
  rw [List.mem_filter] at hr1
  obtain ⟨_, hge⟩ := hr1
  rw [decide_eq_true_eq] at hle hge
  rw [hdate]
  exact ⟨hge, hle⟩

/-- Witness for the amended C1 at the concrete counterexample input. -/
theorem date_filter_bounds_amended_witness :
    toDay 2020 1 1 ≤ (OutRow.mk "A" (toDay 2020 1 6) 1500 none none).date ∧
    (OutRow.mk "A" (toDay 2020 1 6) 1500 none none).date ≤ toDay 2020 1 5 + 1 :=
  date_filter_bounds_amended (toDay 2020 1 1) (toDay 2020 1 5) 0 false
    [⟨"A", toDay 2020 1 6, 1500⟩] ⟨"A", toDay 2020 1 6, 1500, none, none⟩ (by decide)

/-- Claim C4: with delta mode on, every output point's delta equals its
display value (smoothed if smoothing is on, raw otherwise) minus the
first display value of its entity in the output table, and in particular
the first remaining point of every entity has delta exactly 0. -/
theorem delta_rebase_law (ds de : Option Nat) (w : Nat) (df : List Row)
    (out : List OutRow) (hout : out = pipeline ds de w true df) :
    (∀ r ∈ out, r.delta = some (dispVal r - firstVal out r.entity)) ∧
    (∀ (ent : String) (r0 : OutRow),
      out.find? (fun r => decide (r.entity = ent)) = some r0 → r0.delta = some 0) := by
  subst hout
  unfold pipeline
  exact transform_delta_law w _

/-- Witness for C4 at a concrete input: the single point of entity `A`
is its entity's first point, and its delta is 0. -/
theorem delta_rebase_law_witness :
    (OutRow.mk "A" 1 1500 none (some ((1500 : Rat) - 1500))).delta = some 0 :=
  (delta_rebase_law none none 0 [⟨"A", 1, 1500⟩]
      (pipeline none none 0 true [⟨"A", 1, 1500⟩]) rfl).2 "A"
    ⟨"A", 1, 1500, none, some ((1500 : Rat) - 1500)⟩ rfl

/-- Claim C5: with window 0 the smoothing column is never added and the
display value of every output point is its raw rating; with window
`k > 0`, for every entity the smoothed column of that entity's rows is
the trailing moving average of the up-to-`k` most recent raw ratings of
that entity (partial windows at the start of the series), and in
particular the first point of each entity's series has smoothed value
equal to its own raw rating. -/
theorem smoothing_window_law :
    (∀ (ds de : Option Nat) (d : Bool) (df : List Row) (r : OutRow),
      r ∈ pipeline ds de 0 d df → r.eloSmoothed = none ∧ dispVal r = r.elo) ∧
    (∀ k : Nat, 0 < k → ∀ (d : Bool) (t : List Row) (ent : String),
      (((transformStage k d t).filter (fun r => decide (r.entity = ent))).map dispVal
        = trailingAvgs k []
            (((sortRows t).filter (fun x => decide (x.entity = ent))).map Row.elo)) ∧
      (∀ r0 : OutRow,
        (transformStage k d t).find? (fun r => decide (r.entity = ent)) = some r0 →
        r0.eloSmoothed = some r0.elo)) := by
  constructor
  · intro ds de d df r hr
    unfold pipeline at hr
    have hn := transform_smoothed_none_of_w0 hr
    refine ⟨hn, ?_⟩
    unfold dispVal
    rw [hn]
    rfl
  · intro k hk d t ent
    have hsorted : List.Sorted outLE (smoothGo k [] (sortRows t)) := sorted_transform_smooth t
    have hsid : sortOut (smoothGo k [] (sortRows t)) = smoothGo k [] (sortRows t) := by
      unfold sortOut
      exact List.Sorted.insertionSort_eq hsorted
    have hfilter : ((smoothGo k [] (sortRows t)).filter
          (fun r => decide (r.entity = ent))).map dispVal
        = trailingAvgs k []
            (((sortRows t).filter (fun x => decide (x.entity = ent))).map Row.elo) := by
      have h0 := smoothGo_filter_disp k ent (sortRows t) []
      simpa using h0
    have hfind : ∀ r0 : OutRow,
        (smoothGo k [] (sortRows t)).find? (fun r => decide (r.entity = ent)) = some r0 →
        r0.eloSmoothed = some r0.elo :=
      smoothGo_find_head k hk ent (sortRows t) [] rfl
    unfold transformStage
    rw [if_pos hk]
    cases d with
    | false =>
      rw [if_neg Bool.false_ne_true]
      exact ⟨hfilter, hfind⟩
    | true =>
      rw [if_pos rfl, hsid]
      constructor
      · rw [filter_map_disp_deltaStage (smoothGo k [] (sortRows t))
            (fun r => decide (r.entity = ent)) (fun r => rfl)]
        exact hfilter
      · intro r0 h
        rw [find?_deltaStage] at h
        cases hs : (smoothGo k [] (sortRows t)).find? (fun r => decide (r.entity = ent)) with
        | none => rw [hs] at h; exact absurd h (by simp)
        | some r1 =>
          rw [hs] at h
          simp only [Option.map_some', Option.some.injEq] at h
          subst h
          exact hfind r1 hs

/-- Witness for C5: a concrete instance of the positive-window part. -/
theorem smoothing_window_law_witness :
    (0 < 1) ∧
    (((transformStage 1 false []).filter (fun r => decide (r.entity = "A"))).map dispVal
      = trailingAvgs 1 []
          (((sortRows []).filter (fun x => decide (x.entity = "A"))).map Row.elo)) :=
  ⟨by decide, ((smoothing_window_law.2 1 (by decide) false [] "A").1)⟩

/-- Claim C7: in the annual-snapshot national-team fetch, a per-year
transport failure is handled exactly like a year with no matching team
line (the year contributes nothing and the crawl continues), and the
fetch fails — always with the distinct no-data-for-this-name error,
never a transport error — precisely when zero years of the crawled range
produced a value. -/
theorem national_yearly_error_law (fetch fetch' : Nat → Except String (Option Int))
    (team : String) (cy ys ye : Nat) :
    ((∀ y ∈ yearsRange (max YEARS_MIN ys) (min cy ye), yearValue (fetch y) = none) ↔
      fetch_national_history_yearly fetch team cy ys ye = .error (noDataMsg team)) ∧
    ((∀ y, yearValue (fetch y) = yearValue (fetch' y)) →
      fetch_national_history_yearly fetch team cy ys ye
        = fetch_national_history_yearly fetch' team cy ys ye) ∧
    (∀ msg, fetch_national_history_yearly fetch team cy ys ye = .error msg →
      msg = noDataMsg team) := by
  refine ⟨⟨?_, ?_⟩, ?_, ?_⟩
  · intro hall
    have hnil : (yearsRange (max YEARS_MIN ys) (min cy ye)).filterMap
        (fun y => (yearValue (fetch y)).map (fun v : Int => (dec31 y, (v : Rat)))) = [] := by
      rw [List.filterMap_eq_nil_iff]
      intro y hy
      rw [Option.map_eq_none']
      exact hall y hy
    simp only [fetch_national_history_yearly]
    rw [hnil]
    rfl
  · intro heq y hy
    have hnil : (yearsRange (max YEARS_MIN ys) (min cy ye)).filterMap
        (fun y => (yearValue (fetch y)).map (fun v : Int => (dec31 y, (v : Rat)))) = [] := by
      by_cases hcase : ((yearsRange (max YEARS_MIN ys) (min cy ye)).filterMap
          (fun y => (yearValue (fetch y)).map (fun v : Int => (dec31 y, (v : Rat))))).isEmpty
      · exact List.isEmpty_iff.1 hcase
      · exfalso
        simp only [fetch_national_history_yearly] at heq
        rw [if_neg hcase] at heq
        exact Except.noConfusion heq
    have h1 := List.filterMap_eq_nil_iff.1 hnil y hy
    exact Option.map_eq_none'.1 h1
  · intro h
    have hfun : (fun y => (yearValue (fetch y)).map (fun v : Int => (dec31 y, (v : Rat))))
        = (fun y => (yearValue (fetch' y)).map (fun v : Int => (dec31 y, (v : Rat)))) :=
      funext fun y => by rw [h y]
    simp only [fetch_national_history_yearly]
    rw [hfun]
  · intro msg hmsg
    by_cases hcase : ((yearsRange (max YEARS_MIN ys) (min cy ye)).filterMap
        (fun y => (yearValue (fetch y)).map (fun v : Int => (dec31 y, (v : Rat))))).isEmpty
    · simp only [fetch_national_history_yearly] at hmsg
      rw [if_pos hcase] at hmsg
      injection hmsg with h1
      exact h1.symm
    · simp only [fetch_national_history_yearly] at hmsg
      rw [if_neg hcase] at hmsg
      exact Except.noConfusion hmsg

/-- Witness for C7: a crawl whose every year raises a transport error
and a crawl whose every year parses to no match produce the same
result. -/
theorem national_yearly_error_law_witness :
    fetch_national_history_yearly (fun _ => .error "connection refused") "X" 2000 1990 1995
      = fetch_national_history_yearly (fun _ => .ok none) "X" 2000 1990 1995 :=
  (national_yearly_error_law (fun _ => .error "connection refused") (fun _ => .ok none)
      "X" 2000 1990 1995).2.1 (fun _ => rfl)

/-- Claim C9: whatever year bounds the caller supplies, every point of a
successful annual-snapshot fetch is dated December 31 of a year in the
clamped range `[max(1901, year_start), min(current year, year_end)]`,
and a requested range lying entirely outside those bounds yields the
zero-years no-data failure. -/
theorem national_yearly_clamp_law (fetch : Nat → Except String (Option Int))
    (team : String) (cy ys ye : Nat) :
    (∀ out, fetch_national_history_yearly fetch team cy ys ye = .ok out →
      ∀ r ∈ out, ∃ y, max YEARS_MIN ys ≤ y ∧ y ≤ min cy ye ∧ r.date = dec31 y) ∧
    (min cy ye < max YEARS_MIN ys →
      fetch_national_history_yearly fetch team cy ys ye = .error (noDataMsg team)) := by
  constructor
  · intro out hout r hr
    simp only [fetch_national_history_yearly] at hout
    by_cases hcase : ((yearsRange (max YEARS_MIN ys) (min cy ye)).filterMap
        (fun y => (yearValue (fetch y)).map (fun v : Int => (dec31 y, (v : Rat))))).isEmpty
    · rw [if_pos hcase] at hout
      exact Except.noConfusion hout
    · rw [if_neg hcase] at hout
      injection hout with hout2
      rw [← hout2] at hr
      unfold stepify at hr
      have hdate := mem_stepGo_date team _ r hr
      have hperm : (List.insertionSort ptLE (List.insertionSort ptLE
          ((yearsRange (max YEARS_MIN ys) (min cy ye)).filterMap
            (fun y => (yearValue (fetch y)).map (fun v : Int => (dec31 y, (v : Rat))))))).Perm
          ((yearsRange (max YEARS_MIN ys) (min cy ye)).filterMap
            (fun y => (yearValue (fetch y)).map (fun v : Int => (dec31 y, (v : Rat))))) :=
        (List.perm_insertionSort ptLE _).trans (List.perm_insertionSort ptLE _)
      rw [(hperm.map Prod.fst).mem_iff] at hdate
      obtain ⟨p, hp, hpd⟩ := List.mem_map.1 hdate
      obtain ⟨y, hy, hmap⟩ := List.mem_filterMap.1 hp
      obtain ⟨v, _, hgv⟩ := Option.map_eq_some'.1 hmap
      have hfst : p.1 = dec31 y := by rw [← hgv]
      unfold yearsRange at hy
      rw [List.mem_range'] at hy
      obtain ⟨i, hi, hyi⟩ := hy
      refine ⟨y, by omega, by omega, ?_⟩
      rw [← hpd, hfst]
  · intro hlt
    have hnil : yearsRange (max YEARS_MIN ys) (min cy ye) = [] := by
      unfold yearsRange
      have h0 : min cy ye + 1 - max YEARS_MIN ys = 0 := by omega
      rw [h0]
      rfl
    simp only [fetch_national_history_yearly]
    rw [hnil]
    rfl

/-- Witness for C9: a year range entirely before 1901 (here the current
year is 1800) fails with the no-data error even when every page would
parse. -/
theorem national_yearly_clamp_law_witness :
    (min 1800 1995 < max YEARS_MIN 1990) ∧
    fetch_national_history_yearly (fun _ => .ok (some 1600)) "X" 1800 1990 1995
      = .error (noDataMsg "X") :=
  ⟨by decide,
   (national_yearly_clamp_law (fun _ => .ok (some 1600)) "X" 1800 1990 1995).2 (by decide)⟩

/-- Claim C10: the name-matching predicate accepts any two names that
agree up to letter case and surrounding whitespace (in particular every
name matches itself), and it is symmetric: `name_matches a b` always
equals `name_matches b a`, including when the match goes through an
alias group. -/
theorem name_match_refl_symm_law :
    (∀ a b : String, pyLower (pyStrip a) = pyLower (pyStrip b) → name_matches a b = true) ∧
    (∀ a b : String, name_matches a b = name_matches b a) := by
  constructor
  · intro a b h
    unfold name_matches
    rw [if_pos h]
  · intro a b
    unfold name_matches
    by_cases h : pyLower (pyStrip a) = pyLower (pyStrip b)
    · rw [if_pos h, if_pos h.symm]
    · rw [if_neg h, if_neg (fun h2 => h h2.symm)]
      have hfun : (fun ca : String × List String =>
            ((ca.2 ++ [ca.1]).map pyLower).contains (pyLower (pyStrip a)) &&
            ((ca.2 ++ [ca.1]).map pyLower).contains (pyLower (pyStrip b)))
          = (fun ca : String × List String =>
            ((ca.2 ++ [ca.1]).map pyLower).contains (pyLower (pyStrip b)) &&
            ((ca.2 ++ [ca.1]).map pyLower).contains (pyLower (pyStrip a))) :=
        funext fun ca => Bool.and_comm _ _
      rw [hfun]

/-- Witness for C10: a case- and whitespace-insensitive self-match. -/
theorem name_match_refl_symm_law_witness :
    name_matches "  Norway " "NORWAY" = true :=
  name_match_refl_symm_law.1 "  Norway " "NORWAY" rfl

end VIFELO
